import Mathlib

/-!
Shallow embedding of `segmentation_models_pytorch/encoders/efficientnetst.py`:
the dual-stem `EfficientNetSTEncoder` (its `forward` pass and its
`load_state_dict` override) and the static registry
`efficient_netst_encoders`.

Modelling choices:
* Tensor data lives in a `Store`: a map from storage id to a list of values,
  plus a fresh-id counter.  Two parameters alias exactly when they hold the
  same storage id, which models PyTorch `a.weight.data = b.weight.data`
  (shared storage) versus `clone()` (fresh storage).
* A pretrained state dict is an association list from parameter name to
  values (Python dict keys are unique).
* The feature tensors returned by `forward` are symbolic expressions
  (`Tens`): each records the exact sequence of layer applications, so
  structural facts (which stem produced which feature, which drop-connect
  rate each block received) are directly visible.
* Floating point rates are modelled with `Rat`.
* Code of this repository that is not part of the extracted source
  (the base `EfficientNetEncoder` constructor and its `load_state_dict`)
  is modelled from the spec; those definitions say so in their doc comment.
* Constants of the external `efficientnet_pytorch` library
  (`get_model_params`, block counts) are embedded with their documented
  values.
-/

namespace EffNetST

/-- Python exceptions surfaced by the embedded operations. -/
inductive PyErr where
  | attributeError
  | indexError
  | missingKeys
deriving DecidableEq

/-- A pretrained state dict: association list from parameter name to
flattened tensor values.  Python dict keys are unique. -/
abbrev Dict := List (String × List Int)

/-- Key membership test (`k in d.keys()`). -/
def hasKey (d : Dict) (k : String) : Bool :=
  match d with
  | [] => false
  | p :: rest => if p.1 = k then true else hasKey rest k

/-- Value lookup (`d[k]`), `none` when the key is absent. -/
def lookupKey (d : Dict) (k : String) : Option (List Int) :=
  match d with
  | [] => none
  | p :: rest => if p.1 = k then some p.2 else lookupKey rest k

/-- Python `d.pop(k)`: remove the key's entry.  Since Python dict keys are unique,
removing every matching entry is equivalent. -/
def popKey (d : Dict) (k : String) : Dict :=
  match d with
  | [] => []
  | p :: rest => if p.1 = k then popKey rest k else p :: popKey rest k

/-- Tensor storages: map from storage id to flattened values, plus a
fresh-id counter.  Two parameters alias iff they hold the same id. -/
structure Store where
  mem : List (Nat × List Int)
  next : Nat
deriving DecidableEq

def readMem (m : List (Nat × List Int)) (sid : Nat) : Option (List Int) :=
  match m with
  | [] => none
  | p :: rest => if p.1 = sid then some p.2 else readMem rest sid

def writeMem (m : List (Nat × List Int)) (sid : Nat) (v : List Int) :
    List (Nat × List Int) :=
  match m with
  | [] => [(sid, v)]
  | p :: rest => if p.1 = sid then (sid, v) :: rest else p :: writeMem rest sid v

def readStore (st : Store) (sid : Nat) : Option (List Int) :=
  readMem st.mem sid

/-- In-place mutation of a storage (a `copy_` or an in-place arithmetic
op on the tensor): every parameter aliasing this storage observes it. -/
def writeStore (st : Store) (sid : Nat) (v : List Int) : Store :=
  { st with mem := writeMem st.mem sid v }

/-- Allocate a fresh storage (a newly constructed tensor).  Its initial
contents are unobserved in every use below (the randomly initialized
stem weight is immediately replaced by the aliasing assignment). -/
def allocStore (st : Store) : Store :=
  { mem := st.mem ++ [(st.next, [])], next := st.next + 1 }

def keyFcBias : String := "_fc.bias"

def keyFcWeight : String := "_fc.weight"

def keyConvStemWeight : String := "_conv_stem.weight"

def b0Name : String := "efficientnet-b0"

/-- Construction hyperparameters of the external `efficientnet_pytorch`
library (`get_model_params`): batch-norm momentum 0.99, epsilon 1e-3 and
drop-connect rate 0.2 for every variant; the default image size differs
per variant. -/
structure GlobalParams where
  batch_norm_momentum : Rat
  batch_norm_epsilon : Rat
  drop_connect_rate : Rat
  image_size : Option Nat
deriving DecidableEq

/-- External `efficientnet_pytorch.utils.get_model_params`,
restricted to the global parameters the encoder consumes.  An unknown
name raises in Python; here it returns `none`. -/
def get_model_params (name : String) : Option GlobalParams :=
  if name = "efficientnet-b0" then some ⟨99/100, 1/1000, 1/5, some 224⟩
  else if name = "efficientnet-b1" then some ⟨99/100, 1/1000, 1/5, some 240⟩
  else if name = "efficientnet-b2" then some ⟨99/100, 1/1000, 1/5, some 260⟩
  else if name = "efficientnet-b3" then some ⟨99/100, 1/1000, 1/5, some 300⟩
  else if name = "efficientnet-b4" then some ⟨99/100, 1/1000, 1/5, some 380⟩
  else if name = "efficientnet-b5" then some ⟨99/100, 1/1000, 1/5, some 456⟩
  else if name = "efficientnet-b6" then some ⟨99/100, 1/1000, 1/5, some 528⟩
  else if name = "efficientnet-b7" then some ⟨99/100, 1/1000, 1/5, some 600⟩
  else none

/-- The b0 global parameters, for reference in statements. -/
def gpB0 : GlobalParams := ⟨99/100, 1/1000, 1/5, some 224⟩

/-- The convolution padding policy chosen by
`efficientnet_pytorch.model.get_same_padding_conv2d`. -/
inductive PaddingPolicy where
  | staticPad (image_size : Nat)
  | dynamicPad
deriving DecidableEq

/-- External `get_same_padding_conv2d(image_size)`: static same-padding when an
image size is configured, dynamic otherwise (external library). -/
def get_same_padding_conv2d (image_size : Option Nat) : PaddingPolicy :=
  match image_size with
  | some s => .staticPad s
  | none => .dynamicPad

/-- The construction-time configuration of a 2d convolution module, plus
the storage id its weight parameter currently holds. -/
structure Conv2d where
  in_channels : Nat
  out_channels : Nat
  kernel_size : Nat
  stride : Nat
  bias : Bool
  padding : PaddingPolicy
  weight_sid : Nat
deriving DecidableEq

/-- The construction-time configuration of a `nn.BatchNorm2d` module. -/
structure BatchNorm2d where
  num_features : Nat
  momentum : Rat
  eps : Rat
deriving DecidableEq

/-- Runtime state of an `EfficientNetSTEncoder`.  The auxiliary stem
attributes `_conv_stem_st` and `_bn0_st` are `Option`s: `none` models the
Python attribute being absent (before `load_state_dict` has run). -/
structure EncoderState where
  model_name : String
  depth : Nat
  stage_idxs : List Nat
  out_channels : List Nat
  numBlocks : Nat
  drop_connect_rate : Rat
  conv_stem_weight : Nat
  conv_stem_st : Option Conv2d
  bn0_st : Option BatchNorm2d
deriving DecidableEq

/-- Modelled from the spec: `EfficientNetSTEncoder.__init__` delegates to
the base `EfficientNetEncoder` constructor (file `encoders/efficientnet.py`,
not part of the extracted source), which records depth, stage indices,
output channels and the backbone hyperparameters and creates the primary
stem modules.  Per the spec, "No auxiliary-stem weights exist before
loading is performed": the constructor sets no `_conv_stem_st` / `_bn0_st`
attributes. -/
def initEncoder (stage_idxs out_channels : List Nat) (model_name : String)
    (depth : Nat) (numBlocks : Nat) (drop_rate : Rat) (stem_sid : Nat) :
    EncoderState :=
  { model_name := model_name
    depth := depth
    stage_idxs := stage_idxs
    out_channels := out_channels
    numBlocks := numBlocks
    drop_connect_rate := drop_rate
    conv_stem_weight := stem_sid
    conv_stem_st := none
    bn0_st := none }

/-- Symbolic feature tensors: each constructor records one layer
application from the `forward` pass. -/
inductive Tens where
  | input
  | conv_stem_st_app (t : Tens)
  | bn0_st_app (t : Tens)
  | conv_stem_app (t : Tens)
  | bn0_app (t : Tens)
  | swish (t : Tens)
  | block (idx : Nat) (rate : Rat) (t : Tens)
deriving DecidableEq

/-- All `(block index, drop-connect rate)` pairs recorded in a symbolic
tensor. -/
def blockRates (t : Tens) : List (Nat × Rat) :=
  match t with
  | .input => []
  | .conv_stem_st_app s => blockRates s
  | .bn0_st_app s => blockRates s
  | .conv_stem_app s => blockRates s
  | .bn0_app s => blockRates s
  | .swish s => blockRates s
  | .block i r s => (i, r) :: blockRates s

/-- The drop-connect rate `forward` passes to the block at index `idx`
(lines 46-48): the configured base rate, scaled by `idx / numBlocks` when
the base rate is non-zero (Python truthiness of a float). -/
def dropRateAt (gp : Rat) (n idx : Nat) : Rat :=
  if gp = 0 then gp else gp * ((idx : Rat) / (n : Rat))

/-- The block loop of `forward` (lines 44-54).  `rem` enumerates the
remaining block indices, `skip` is `skip_connection_idx`, `x` the running
tensor and `feats` the features accumulated so far.  Each iteration reads
`stage_idxs[skip]`; an out-of-range access is Python's `IndexError`. -/
def forwardLoop (si : List Nat) (depth : Nat) (gp : Rat) (n : Nat) :
    List Nat → Nat → Tens → List Tens → Except PyErr (List Tens)
  | [], _, _, feats => .ok feats
  | idx :: rest, skip, x, feats =>
    let x1 := Tens.block idx (dropRateAt gp n idx) x
    match si[skip]? with
    | none => .error .indexError
    | some s =>
      if (idx : Int) = (s : Int) - 1 then
        if skip + 1 + 1 = depth then .ok (feats ++ [x1])
        else forwardLoop si depth gp n rest (skip + 1) x1 (feats ++ [x1])
      else forwardLoop si depth gp n rest skip x1 feats

/-- The method `EfficientNetSTEncoder.forward` (lines 36-56).  Feature 0 is the
auxiliary stem applied to the raw input; accessing the absent auxiliary
attributes before loading is Python's `AttributeError`. -/
def forward (e : EncoderState) (x : Tens) : Except PyErr (List Tens) :=
  match e.conv_stem_st, e.bn0_st with
  | some _, some _ =>
    let f0 := Tens.swish (Tens.bn0_st_app (Tens.conv_stem_st_app x))
    if 0 < e.depth then
      let x1 := Tens.swish (Tens.bn0_app (Tens.conv_stem_app x))
      if 1 < e.depth then
        forwardLoop e.stage_idxs e.depth e.drop_connect_rate e.numBlocks
          (List.range e.numBlocks) 0 x1 [f0, x1]
      else .ok [f0, x1]
    else .ok [f0]
  | _, _ => .error .attributeError

/-- Modelled from the spec: `EfficientNetEncoder.load_state_dict`
(file `encoders/efficientnet.py`, not part of the extracted source)
delegates to the framework loader, which copies each incoming tensor's
values in place into the module's existing parameter storage; a
pretrained state missing the primary stem weights "is not recovered — it
is surfaced as-is from the base loading call". -/
def superLoadStateDict (e : EncoderState) (d : Dict) (st : Store) :
    Except PyErr Store :=
  match lookupKey d keyConvStemWeight with
  | none => .error .missingKeys
  | some v => .ok (writeStore st e.conv_stem_weight v)

/-- Lines 60-61, `d.pop(k) if k in d.keys() else print(...)`: the pop
happens only when the key is present; otherwise only a message is printed
(stdout, not part of the state) and nothing is raised. -/
def popIfPresent (d : Dict) (k : String) : Dict :=
  if hasKey d k then popKey d k else d

/-- The result of `load_state_dict`: the mutated encoder, the state of
the caller's (mutated in place) dict, and the storage heap. -/
structure LoadResult where
  enc : EncoderState
  dict : Dict
  store : Store
deriving DecidableEq

/-- The method `EfficientNetSTEncoder.load_state_dict` (lines 58-71): pop the
classification-head keys when present, delegate to the base loader, then
re-derive the b0 hyperparameters, construct the auxiliary stem
convolution (fresh weight storage), alias its weight data to the primary
stem's weight data (line 67), and construct the auxiliary batch norm. -/
def loadStateDict (e : EncoderState) (d : Dict) (st : Store) :
    Except PyErr LoadResult :=
  let d1 := popIfPresent d keyFcBias
  let d2 := popIfPresent d1 keyFcWeight
  match superLoadStateDict e d2 st with
  | .error err => .error err
  | .ok st1 =>
    match get_model_params b0Name with
    | none => .error .missingKeys
    | some gp =>
      let conv0 : Conv2d :=
        { in_channels := 3, out_channels := 32, kernel_size := 3,
          stride := 1, bias := false,
          padding := get_same_padding_conv2d gp.image_size,
          weight_sid := st1.next }
      let st2 := allocStore st1
      let conv1 := { conv0 with weight_sid := e.conv_stem_weight }
      let bn : BatchNorm2d :=
        { num_features := 32, momentum := 1 - gp.batch_norm_momentum,
          eps := gp.batch_norm_epsilon }
      .ok { enc := { e with conv_stem_st := some conv1, bn0_st := some bn },
            dict := d2, store := st2 }

/-- A registry entry's `params` dictionary. -/
structure EncoderParams where
  out_channels : List Nat
  stage_idxs : List Nat
  model_name : String
deriving DecidableEq

/-- One entry of `efficient_netst_encoders`.  The `encoder` class field
and the `pretrained_settings` metadata (normalization constants and
weight URL) carry no logic the claims touch and are omitted. -/
structure RegistryEntry where
  name : String
  params : EncoderParams
deriving DecidableEq

/-- The `efficientnetst-b0` registry entry (lines 88-96). -/
def b0Entry : RegistryEntry :=
  ⟨"efficientnetst-b0", ⟨[3, 32, 24, 40, 112, 320], [3, 5, 9], "efficientnet-b0"⟩⟩

/-- The registry `efficient_netst_encoders` (lines 87-160). -/
def efficient_netst_encoders : List RegistryEntry :=
  [b0Entry,
   ⟨"efficientnetst-b1", ⟨[3, 32, 24, 40, 112, 320], [5, 8, 16], "efficientnet-b1"⟩⟩,
   ⟨"efficientnetst-b2", ⟨[3, 32, 24, 48, 120, 352], [5, 8, 16], "efficientnet-b2"⟩⟩,
   ⟨"efficientnetst-b3", ⟨[3, 40, 32, 48, 136, 384], [5, 8, 18], "efficientnet-b3"⟩⟩,
   ⟨"efficientnetst-b4", ⟨[3, 48, 32, 56, 160, 448], [6, 10, 22], "efficientnet-b4"⟩⟩,
   ⟨"efficientnetst-b5", ⟨[3, 48, 40, 64, 176, 512], [8, 13, 27], "efficientnet-b5"⟩⟩,
   ⟨"efficientnetst-b6", ⟨[3, 56, 40, 72, 200, 576], [9, 15, 31], "efficientnet-b6"⟩⟩,
   ⟨"efficientnetst-b7", ⟨[3, 64, 48, 80, 224, 640], [11, 18, 38], "efficientnet-b7"⟩⟩]

/-- The EfficientNet-b0 backbone of the external `efficientnet_pytorch`
library has 16 blocks (`num_repeat` values 1,2,2,3,3,4,1 with depth
coefficient 1.0). -/
def numBlocksB0 : Nat := 16

/-- A freshly constructed `efficientnetst-b0` encoder at the given depth,
with its primary stem weight in storage 0. -/
def mkB0 (depth : Nat) : EncoderState :=
  initEncoder b0Entry.params.stage_idxs b0Entry.params.out_channels
    b0Name depth numBlocksB0 (1/5) 0

/-- A concrete initial heap: the primary stem weight storage holds `[5]`. -/
def stInit : Store := ⟨[(0, [5])], 1⟩

/-- A concrete pretrained state dict with primary stem weights `[7]` and
a classification head. -/
def dInit : Dict := [(keyConvStemWeight, [7]), (keyFcBias, [1]), (keyFcWeight, [2])]

/-- The `efficientnetst-b0` encoder after `load_state_dict`, at the given
depth (`none` would mean loading failed). -/
def loadedB0 (depth : Nat) : Option EncoderState :=
  (loadStateDict (mkB0 depth) dInit stInit).toOption.map fun r => r.enc

/-- The loaded b0 encoder, written out: both stems present, the auxiliary
stem weight aliasing storage 0 (the primary stem weight storage). -/
def encB0Loaded (depth : Nat) : EncoderState :=
  { model_name := b0Name
    depth := depth
    stage_idxs := [3, 5, 9]
    out_channels := [3, 32, 24, 40, 112, 320]
    numBlocks := 16
    drop_connect_rate := 1/5
    conv_stem_weight := 0
    conv_stem_st := some
      { in_channels := 3, out_channels := 32, kernel_size := 3, stride := 1,
        bias := false, padding := .staticPad 224, weight_sid := 0 }
    bn0_st := some { num_features := 32, momentum := 1 - 99/100, eps := 1/1000 } }

/-- The features of a depth-1 loaded encoder: auxiliary stem output, then
primary stem output, both applied to the raw input. -/
def fs1W : List Tens :=
  [Tens.swish (Tens.bn0_st_app (Tens.conv_stem_st_app Tens.input)),
   Tens.swish (Tens.bn0_app (Tens.conv_stem_app Tens.input))]

/-- The features of a depth-2 loaded b0 encoder: the two stem outputs and
the stage ending at block index 2, with drop-connect rates
`(1/5)*(0/16) = 0`, `(1/5)*(1/16) = 1/80` and `(1/5)*(2/16) = 1/40`. -/
def fs2W : List Tens :=
  [Tens.swish (Tens.bn0_st_app (Tens.conv_stem_st_app Tens.input)),
   Tens.swish (Tens.bn0_app (Tens.conv_stem_app Tens.input)),
   Tens.block 2 (dropRateAt (1/5) 16 2)
     (Tens.block 1 (dropRateAt (1/5) 16 1)
       (Tens.block 0 (dropRateAt (1/5) 16 0)
         (Tens.swish (Tens.bn0_app (Tens.conv_stem_app Tens.input)))))]

/-- The load result on the concrete b0 inputs above (depth 5), written
out for use as a witness input. -/
def resW : LoadResult :=
  { enc := encB0Loaded 5
    dict := [(keyConvStemWeight, [7])]
    store := ⟨[(0, [7]), (1, [])], 2⟩ }

/-! ### Helper lemmas about dicts, storages and the load/forward code -/

theorem popKey_of_not_hasKey (d : Dict) (k : String) (h : hasKey d k = false) :
    popKey d k = d := by
  induction d with
  | nil => rfl
  | cons p rest ih =>
    unfold hasKey at h
    unfold popKey
    split at h
    · exact absurd h (by simp)
    · rw [if_neg (by assumption), ih h]

theorem hasKey_popKey_self (d : Dict) (k : String) :
    hasKey (popKey d k) k = false := by
  induction d with
  | nil => rfl
  | cons p rest ih =>
    unfold popKey
    split
    · exact ih
    · unfold hasKey
      rw [if_neg (by assumption)]
      exact ih

theorem hasKey_popKey_ne (d : Dict) (k k' : String) (h : k ≠ k') :
    hasKey (popKey d k') k = hasKey d k := by
  induction d with
  | nil => rfl
  | cons p rest ih =>
    simp only [popKey]
    by_cases hp : p.1 = k'
    · rw [if_pos hp, ih]
      simp only [hasKey]
      rw [if_neg fun hk => h (hk.symm.trans hp)]
    · rw [if_neg hp]
      simp only [hasKey]
      by_cases hk : p.1 = k
      · rw [if_pos hk, if_pos hk]
      · rw [if_neg hk, if_neg hk]
        exact ih

theorem length_popKey_le (d : Dict) (k : String) :
    (popKey d k).length ≤ d.length := by
  induction d with
  | nil => exact Nat.le_refl _
  | cons p rest ih =>
    unfold popKey
    split
    · exact Nat.le_succ_of_le ih
    · simpa using ih

theorem length_popKey_lt (d : Dict) (k : String) (h : hasKey d k = true) :
    (popKey d k).length < d.length := by
  induction d with
  | nil => simp [hasKey] at h
  | cons p rest ih =>
    unfold hasKey at h
    unfold popKey
    split at h
    · rw [if_pos (by assumption)]
      exact Nat.lt_succ_of_le (length_popKey_le rest k)
    · rw [if_neg (by assumption)]
      simpa using ih h

theorem popIfPresent_eq_popKey (d : Dict) (k : String) :
    popIfPresent d k = popKey d k := by
  unfold popIfPresent
  split
  · rfl
  · rw [popKey_of_not_hasKey d k (by simp_all)]

theorem readMem_writeMem_self (m : List (Nat × List Int)) (sid : Nat)
    (v : List Int) : readMem (writeMem m sid v) sid = some v := by
  induction m with
  | nil => simp [writeMem, readMem]
  | cons p rest ih =>
    unfold writeMem
    by_cases hp : p.1 = sid
    · rw [if_pos hp]
      simp [readMem]
    · rw [if_neg hp]
      unfold readMem
      rw [if_neg hp]
      exact ih

theorem readStore_writeStore_self (st : Store) (sid : Nat) (v : List Int) :
    readStore (writeStore st sid v) sid = some v :=
  readMem_writeMem_self st.mem sid v

/-- Characterization of `load_state_dict`: it strips the two classification-head
keys, and when the primary stem weights are present it writes them into
the primary stem storage, allocates a fresh storage for the auxiliary
convolution, and records an auxiliary stem whose weight storage id is the
primary stem's storage id (the aliasing assignment of line 67). -/
theorem loadStateDict_eq (e : EncoderState) (d : Dict) (st : Store) :
    loadStateDict e d st =
      match lookupKey (popKey (popKey d keyFcBias) keyFcWeight) keyConvStemWeight with
      | none => .error .missingKeys
      | some v => .ok
          { enc := { e with
              conv_stem_st := some
                { in_channels := 3, out_channels := 32, kernel_size := 3,
                  stride := 1, bias := false, padding := .staticPad 224,
                  weight_sid := e.conv_stem_weight },
              bn0_st := some
                { num_features := 32, momentum := 1 - 99/100, eps := 1/1000 } },
            dict := popKey (popKey d keyFcBias) keyFcWeight,
            store := ⟨writeMem st.mem e.conv_stem_weight v ++ [(st.next, [])],
                      st.next + 1⟩ } := by
  unfold loadStateDict superLoadStateDict
  simp only [popIfPresent_eq_popKey]
  cases lookupKey (popKey (popKey d keyFcBias) keyFcWeight) keyConvStemWeight <;> rfl

/-- The block loop only appends to the feature list it is given. -/
theorem forwardLoop_append (si : List Nat) (depth : Nat) (gp : Rat) (n : Nat)
    (rem : List Nat) :
    ∀ skip x feats fs, forwardLoop si depth gp n rem skip x feats = .ok fs →
      ∃ t, fs = feats ++ t := by
  induction rem with
  | nil =>
    intro skip x feats fs h
    simp only [forwardLoop, Except.ok.injEq] at h
    exact ⟨[], by simp [h]⟩
  | cons idx rest ih =>
    intro skip x feats fs h
    simp only [forwardLoop] at h
    cases hs : si[skip]? with
    | none => simp [hs] at h
    | some s =>
      rw [hs] at h
      simp only at h
      split at h
      · split at h
        · simp only [Except.ok.injEq] at h
          exact ⟨[Tens.block idx (dropRateAt gp n idx) x], h.symm⟩
        · obtain ⟨t, ht⟩ := ih _ _ _ _ h
          exact ⟨Tens.block idx (dropRateAt gp n idx) x :: t, by simp [ht]⟩
      · exact ih _ _ _ _ h

/-- The block loop appends at most one feature per remaining stage index. -/
theorem forwardLoop_length_le (si : List Nat) (depth : Nat) (gp : Rat) (n : Nat)
    (rem : List Nat) :
    ∀ skip x feats fs, forwardLoop si depth gp n rem skip x feats = .ok fs →
      fs.length ≤ feats.length + (si.length - skip) := by
  induction rem with
  | nil =>
    intro skip x feats fs h
    simp only [forwardLoop, Except.ok.injEq] at h
    subst h
    exact Nat.le_add_right _ _
  | cons idx rest ih =>
    intro skip x feats fs h
    simp only [forwardLoop] at h
    cases hs : si[skip]? with
    | none => simp [hs] at h
    | some s =>
      have hskip : skip < si.length := by
        by_contra hle
        rw [List.getElem?_eq_none (by omega)] at hs
        exact absurd hs (by simp)
      rw [hs] at h
      simp only at h
      split at h
      · split at h
        · simp only [Except.ok.injEq] at h
          subst h
          simp only [List.length_append, List.length_cons, List.length_nil]
          omega
        · have := ih _ _ _ _ h
          simp only [List.length_append, List.length_cons, List.length_nil] at this
          omega
      · have := ih _ _ _ _ h
        omega

/-- Every drop-connect rate recorded by the block loop was computed by
`dropRateAt` from the block's own index. -/
theorem forwardLoop_rates (si : List Nat) (depth : Nat) (gp : Rat) (n : Nat)
    (rem : List Nat) :
    ∀ skip x feats fs, forwardLoop si depth gp n rem skip x feats = .ok fs →
      (∀ p ∈ blockRates x, p.2 = dropRateAt gp n p.1) →
      (∀ t ∈ feats, ∀ p ∈ blockRates t, p.2 = dropRateAt gp n p.1) →
      ∀ t ∈ fs, ∀ p ∈ blockRates t, p.2 = dropRateAt gp n p.1 := by
  induction rem with
  | nil =>
    intro skip x feats fs h hx hfeats
    simp only [forwardLoop, Except.ok.injEq] at h
    subst h
    exact hfeats
  | cons idx rest ih =>
    intro skip x feats fs h hx hfeats
    have hx1 : ∀ p ∈ blockRates (Tens.block idx (dropRateAt gp n idx) x),
        p.2 = dropRateAt gp n p.1 := by
      intro p hp
      simp only [blockRates, List.mem_cons] at hp
      rcases hp with hp | hp
      · subst hp; rfl
      · exact hx p hp
    have hfeats1 : ∀ t ∈ feats ++ [Tens.block idx (dropRateAt gp n idx) x],
        ∀ p ∈ blockRates t, p.2 = dropRateAt gp n p.1 := by
      intro t ht
      rcases List.mem_append.mp ht with ht | ht
      · exact hfeats t ht
      · rcases List.mem_singleton.mp ht with rfl
        exact hx1
    simp only [forwardLoop] at h
    cases hs : si[skip]? with
    | none => simp [hs] at h
    | some s =>
      rw [hs] at h
      simp only at h
      split at h
      · split at h
        · simp only [Except.ok.injEq] at h
          subst h
          exact hfeats1
        · exact ih _ _ _ _ h hx1 hfeats1
      · exact ih _ _ _ _ h hx1 hfeats

/-! ### The claims -/

/-- Claim C1, counterexample.  On a concrete load (`efficientnetst-b0`,
incoming stem weights `[7]`), after `load_state_dict` the auxiliary stem
weight reads `[7]`, and after an in-place mutation of the *primary* stem
weight storage to `[9]` the auxiliary stem weight reads `[9]`: the two
weights are one shared storage, so mutating one does NOT leave the other
unchanged — the claimed deep copy does not hold. -/
theorem claim1_distinct_storage_counterexample :
    (loadStateDict (mkB0 5) dInit stInit).toOption.map (fun r =>
      ((r.enc.conv_stem_st.map fun c => readStore r.store c.weight_sid),
       (r.enc.conv_stem_st.map fun c =>
          readStore (writeStore r.store r.enc.conv_stem_weight [9]) c.weight_sid))) =
      some (some (some [7]), some (some [9])) := rfl

/-- Claim C1, amended.  After `load_state_dict` completes, the auxiliary
stem convolution's weight is element-wise equal to the primary stem
convolution's weight because the two share one storage (line 67 aliases
the data rather than deep-copying): in-place mutation of the primary
weight storage is observed identically through the auxiliary weight. -/
theorem claim1_aux_weight_aliases_primary (e : EncoderState) (d : Dict)
    (st : Store) (r : LoadResult) (h : loadStateDict e d st = .ok r) :
    (r.enc.conv_stem_st.map fun c => c.weight_sid) = some r.enc.conv_stem_weight ∧
    (r.enc.conv_stem_st.map fun c => readStore r.store c.weight_sid) =
      some (readStore r.store r.enc.conv_stem_weight) ∧
    ∀ v, (r.enc.conv_stem_st.map fun c =>
        readStore (writeStore r.store r.enc.conv_stem_weight v) c.weight_sid) =
      some (some v) := by
  rw [loadStateDict_eq] at h
  cases hlk : lookupKey (popKey (popKey d keyFcBias) keyFcWeight) keyConvStemWeight with
  | none => rw [hlk] at h; exact absurd h (by simp)
  | some v =>
    rw [hlk] at h
    simp only [Except.ok.injEq] at h
    subst h
    refine ⟨rfl, rfl, fun v' => ?_⟩
    exact congrArg some (readStore_writeStore_self _ _ _)

/-- Claim C1, witness for the amended theorem, at the concrete b0 load. -/
theorem claim1_aux_weight_aliases_primary_witness :
    loadStateDict (mkB0 5) dInit stInit = .ok resW ∧
    ((resW.enc.conv_stem_st.map fun c => c.weight_sid) = some resW.enc.conv_stem_weight ∧
     (resW.enc.conv_stem_st.map fun c => readStore resW.store c.weight_sid) =
       some (readStore resW.store resW.enc.conv_stem_weight) ∧
     ∀ v, (resW.enc.conv_stem_st.map fun c =>
         readStore (writeStore resW.store resW.enc.conv_stem_weight v) c.weight_sid) =
       some (some v)) :=
  ⟨rfl, claim1_aux_weight_aliases_primary (mkB0 5) dInit stInit resW rfl⟩

/-- Claim C2.  The claim (and the module docstring) says `forward` with
depth 5 returns 6 features.  In fact, for every encoder whose registry
`stage_idxs` has 3 entries (all of them do), a successful `forward` can
return at most 5 features; on the loaded `efficientnetst-b0` encoder
(16 backbone blocks) `forward` at depth 5 raises `IndexError`
(`stage_idxs[3]` at block index 9), while at depth 3 it returns exactly 4
features as claimed. -/
theorem claim2_feature_count :
    (∀ (e : EncoderState) (x : Tens), e.stage_idxs.length = 3 →
        Except.map List.length (forward e x) ≠ .ok 6) ∧
    (loadedB0 5).map (fun e => Except.map List.length (forward e Tens.input)) =
      some (.error .indexError) ∧
    (loadedB0 3).map (fun e => Except.map List.length (forward e Tens.input)) =
      some (.ok 4) := by
  refine ⟨?_, rfl, rfl⟩
  intro e x h3 hc
  rcases hcs : e.conv_stem_st with _ | c
  · simp [forward, hcs, Except.map] at hc
  rcases hbn : e.bn0_st with _ | b
  · simp [forward, hcs, hbn, Except.map] at hc
  simp only [forward, hcs, hbn] at hc
  split_ifs at hc with hd0 hd1
  · rcases hl : forwardLoop e.stage_idxs e.depth e.drop_connect_rate e.numBlocks
        (List.range e.numBlocks) 0
        (Tens.swish (Tens.bn0_app (Tens.conv_stem_app x)))
        [Tens.swish (Tens.bn0_st_app (Tens.conv_stem_st_app x)),
         Tens.swish (Tens.bn0_app (Tens.conv_stem_app x))] with _ | fs
    · rw [hl] at hc; simp [Except.map] at hc
    · rw [hl] at hc
      simp only [Except.map, Except.ok.injEq] at hc
      have hle := forwardLoop_length_le _ _ _ _ _ _ _ _ _ hl
      simp only [List.length_cons, List.length_nil, h3] at hle
      omega
  · simp [Except.map] at hc
  · simp [Except.map] at hc

/-- Claim C2, witness: the general bound applied to the loaded b0 encoder
at depth 3. -/
theorem claim2_feature_count_witness :
    Except.map List.length (forward (encB0Loaded 3) Tens.input) ≠ .ok 6 :=
  claim2_feature_count.1 (encB0Loaded 3) Tens.input rfl

/-- Claim C3.  `load_state_dict` behaves identically (same resulting
encoder, caller dict state and heap) on a state dict and on the same
dict with the classification-head keys removed beforehand — in
particular their absence does not raise — and after a successful load
both keys are absent from the resulting dict state. -/
theorem claim3_fc_keys_tolerated :
    (∀ (e : EncoderState) (d : Dict) (st : Store),
        loadStateDict e d st =
          loadStateDict e (popKey (popKey d keyFcBias) keyFcWeight) st) ∧
    (∀ (e : EncoderState) (d : Dict) (st : Store) (r : LoadResult),
        loadStateDict e d st = .ok r →
          hasKey r.dict keyFcBias = false ∧ hasKey r.dict keyFcWeight = false) := by
  have hbw : keyFcBias ≠ keyFcWeight := by decide
  have hstrip : ∀ d : Dict,
      popKey (popKey (popKey (popKey d keyFcBias) keyFcWeight) keyFcBias) keyFcWeight =
        popKey (popKey d keyFcBias) keyFcWeight := by
    intro d
    rw [popKey_of_not_hasKey _ keyFcBias
         (by rw [hasKey_popKey_ne _ _ _ hbw]; exact hasKey_popKey_self _ _)]
    rw [popKey_of_not_hasKey _ keyFcWeight (hasKey_popKey_self _ _)]
  constructor
  · intro e d st
    rw [loadStateDict_eq e d st, loadStateDict_eq e _ st, hstrip]
  · intro e d st r h
    rw [loadStateDict_eq] at h
    cases hlk : lookupKey (popKey (popKey d keyFcBias) keyFcWeight) keyConvStemWeight with
    | none => rw [hlk] at h; exact absurd h (by simp)
    | some v =>
      rw [hlk] at h
      simp only [Except.ok.injEq] at h
      subst h
      constructor
      · rw [hasKey_popKey_ne _ _ _ hbw]
        exact hasKey_popKey_self _ _
      · exact hasKey_popKey_self _ _

/-- Claim C3, witness at the concrete b0 load. -/
theorem claim3_fc_keys_tolerated_witness :
    loadStateDict (mkB0 5) dInit stInit =
      loadStateDict (mkB0 5) (popKey (popKey dInit keyFcBias) keyFcWeight) stInit ∧
    (hasKey resW.dict keyFcBias = false ∧ hasKey resW.dict keyFcWeight = false) :=
  ⟨claim3_fc_keys_tolerated.1 (mkB0 5) dInit stInit,
   claim3_fc_keys_tolerated.2 (mkB0 5) dInit stInit resW rfl⟩

/-- Claim C4.  Whatever variant the encoder was built for, a successful
`load_state_dict` constructs the auxiliary stem as a 3-in / 32-out
convolution with kernel 3, stride 1 and no bias, and a 32-channel batch
norm, with the padding policy, momentum and epsilon re-derived from the
fixed reference variant `efficientnet-b0` (momentum is 1 minus the
configured batch-norm momentum). -/
theorem claim4_aux_stem_construction (e : EncoderState) (d : Dict)
    (st : Store) (r : LoadResult) (h : loadStateDict e d st = .ok r) :
    ∃ gp, get_model_params b0Name = some gp ∧
      r.enc.conv_stem_st = some
        { in_channels := 3, out_channels := 32, kernel_size := 3, stride := 1,
          bias := false, padding := get_same_padding_conv2d gp.image_size,
          weight_sid := r.enc.conv_stem_weight } ∧
      r.enc.bn0_st = some
        { num_features := 32, momentum := 1 - gp.batch_norm_momentum,
          eps := gp.batch_norm_epsilon } := by
  rw [loadStateDict_eq] at h
  cases hlk : lookupKey (popKey (popKey d keyFcBias) keyFcWeight) keyConvStemWeight with
  | none => rw [hlk] at h; exact absurd h (by simp)
  | some v =>
    rw [hlk] at h
    simp only [Except.ok.injEq] at h
    subst h
    exact ⟨gpB0, rfl, rfl, rfl⟩

/-- Claim C4, witness at the concrete b0 load. -/
theorem claim4_aux_stem_construction_witness :
    loadStateDict (mkB0 5) dInit stInit = .ok resW ∧
    (∃ gp, get_model_params b0Name = some gp ∧
      resW.enc.conv_stem_st = some
        { in_channels := 3, out_channels := 32, kernel_size := 3, stride := 1,
          bias := false, padding := get_same_padding_conv2d gp.image_size,
          weight_sid := resW.enc.conv_stem_weight } ∧
      resW.enc.bn0_st = some
        { num_features := 32, momentum := 1 - gp.batch_norm_momentum,
          eps := gp.batch_norm_epsilon }) :=
  ⟨rfl, claim4_aux_stem_construction (mkB0 5) dInit stInit resW rfl⟩

/-- Claim C5.  Whenever `forward` returns a feature list, feature 0 is
the auxiliary stem convolution applied directly to the raw input,
followed by its batch norm and the swish activation — whatever the
depth — and when depth > 0, feature 1 is the primary stem convolution,
batch norm and activation applied to the same raw input (an independent
path, not chained after the auxiliary stem's output). -/
theorem claim5_first_two_features (e : EncoderState) (x : Tens)
    (fs : List Tens) (h : forward e x = .ok fs) :
    fs.head? = some (Tens.swish (Tens.bn0_st_app (Tens.conv_stem_st_app x))) ∧
    (0 < e.depth →
      fs[1]? = some (Tens.swish (Tens.bn0_app (Tens.conv_stem_app x)))) := by
  rcases hcs : e.conv_stem_st with _ | c
  · simp [forward, hcs] at h
  rcases hbn : e.bn0_st with _ | b
  · simp [forward, hcs, hbn] at h
  simp only [forward, hcs, hbn] at h
  split_ifs at h with hd0 hd1
  · obtain ⟨t, rfl⟩ := forwardLoop_append _ _ _ _ _ _ _ _ _ h
    refine ⟨rfl, fun _ => ?_⟩
    simp
  · simp only [Except.ok.injEq] at h
    subst h
    exact ⟨rfl, fun _ => rfl⟩
  · simp only [Except.ok.injEq] at h
    subst h
    exact ⟨rfl, fun hd => absurd hd hd0⟩

/-- Claim C5, witness: the loaded b0 encoder at depth 1. -/
theorem claim5_first_two_features_witness :
    forward (encB0Loaded 1) Tens.input = .ok fs1W ∧
    (fs1W.head? =
        some (Tens.swish (Tens.bn0_st_app (Tens.conv_stem_st_app Tens.input))) ∧
      (0 < (encB0Loaded 1).depth →
        fs1W[1]? =
          some (Tens.swish (Tens.bn0_app (Tens.conv_stem_app Tens.input))))) :=
  ⟨rfl, claim5_first_two_features (encB0Loaded 1) Tens.input fs1W rfl⟩

/-- Claim C6.  Calling `forward` on a freshly constructed encoder, before
`load_state_dict` has run, fails with an attribute-resolution error (the
auxiliary stem attributes do not exist yet) for every construction
argument and input. -/
theorem claim6_forward_before_load_fails (si oc : List Nat) (mn : String)
    (depth nB : Nat) (dr : Rat) (sid : Nat) (x : Tens) :
    forward (initEncoder si oc mn depth nB dr sid) x = .error .attributeError := rfl

/-- Claim C7.  Every registry entry satisfies
`len(out_channels) = len(stage_idxs) + 3` (hence
`len(stage_idxs) + 1 ≤ len(out_channels)`) and declares
`out_channels[0] = 3`. -/
theorem claim7_registry_out_channels (en : RegistryEntry)
    (h : en ∈ efficient_netst_encoders) :
    en.params.out_channels.length = en.params.stage_idxs.length + 3 ∧
    en.params.stage_idxs.length + 1 ≤ en.params.out_channels.length ∧
    en.params.out_channels.head? = some 3 := by
  fin_cases h <;> decide

/-- Claim C7, witness: the `efficientnetst-b0` entry. -/
theorem claim7_registry_out_channels_witness :
    b0Entry ∈ efficient_netst_encoders ∧
    (b0Entry.params.out_channels.length = b0Entry.params.stage_idxs.length + 3 ∧
     b0Entry.params.stage_idxs.length + 1 ≤ b0Entry.params.out_channels.length ∧
     b0Entry.params.out_channels.head? = some 3) :=
  ⟨by decide, claim7_registry_out_channels b0Entry (by decide)⟩

/-- Claim C8.  In the block loop of `forward`, whenever the configured
base drop-connect rate is non-zero, the rate passed to the block at
index `idx` equals the base rate times `idx` divided by the total block
count. -/
theorem claim8_drop_rate (e : EncoderState) (fs : List Tens)
    (h : forward e Tens.input = .ok fs) (hgp : e.drop_connect_rate ≠ 0) :
    ∀ t ∈ fs, ∀ p ∈ blockRates t,
      p.2 = e.drop_connect_rate * (p.1 : Rat) / (e.numBlocks : Rat) := by
  have key : ∀ t ∈ fs, ∀ p ∈ blockRates t,
      p.2 = dropRateAt e.drop_connect_rate e.numBlocks p.1 := by
    rcases hcs : e.conv_stem_st with _ | c
    · simp [forward, hcs] at h
    rcases hbn : e.bn0_st with _ | b
    · simp [forward, hcs, hbn] at h
    simp only [forward, hcs, hbn] at h
    split_ifs at h with hd0 hd1
    · refine forwardLoop_rates _ _ _ _ _ _ _ _ _ h ?_ ?_
      · intro p hp; simp [blockRates] at hp
      · intro t ht p hp
        rcases List.mem_cons.mp ht with rfl | ht
        · simp [blockRates] at hp
        · rcases List.mem_singleton.mp ht with rfl
          simp [blockRates] at hp
    · simp only [Except.ok.injEq] at h
      subst h
      intro t ht p hp
      rcases List.mem_cons.mp ht with rfl | ht
      · simp [blockRates] at hp
      · rcases List.mem_singleton.mp ht with rfl
        simp [blockRates] at hp
    · simp only [Except.ok.injEq] at h
      subst h
      intro t ht p hp
      rcases List.mem_singleton.mp ht with rfl
      simp [blockRates] at hp
  intro t ht p hp
  rw [key t ht p hp, dropRateAt, if_neg hgp, mul_div_assoc]

/-- Claim C8, witness: the loaded b0 encoder at depth 2, whose returned
features record blocks 0, 1, 2 with rates (1/5)·idx/16. -/
theorem claim8_drop_rate_witness :
    forward (encB0Loaded 2) Tens.input = .ok fs2W ∧
    (encB0Loaded 2).drop_connect_rate ≠ 0 ∧
    ∀ t ∈ fs2W, ∀ p ∈ blockRates t,
      p.2 = (encB0Loaded 2).drop_connect_rate * (p.1 : Rat) /
        ((encB0Loaded 2).numBlocks : Rat) :=
  ⟨rfl, by simp [encB0Loaded],
   claim8_drop_rate (encB0Loaded 2) fs2W rfl (by simp [encB0Loaded])⟩

/-- Claim C9.  `load_state_dict` mutates the caller-supplied state dict
in place: when either classification-head key was present, the caller's
dict after the call lacks both keys and is not the dict it passed in. -/
theorem claim9_state_dict_mutated (e : EncoderState) (d : Dict) (st : Store)
    (r : LoadResult) (h : loadStateDict e d st = .ok r)
    (hk : hasKey d keyFcBias = true ∨ hasKey d keyFcWeight = true) :
    (hasKey r.dict keyFcBias = false ∧ hasKey r.dict keyFcWeight = false) ∧
    r.dict ≠ d := by
  have hbw : keyFcBias ≠ keyFcWeight := by decide
  have hdict : r.dict = popKey (popKey d keyFcBias) keyFcWeight := by
    rw [loadStateDict_eq] at h
    cases hlk : lookupKey (popKey (popKey d keyFcBias) keyFcWeight) keyConvStemWeight with
    | none => rw [hlk] at h; exact absurd h (by simp)
    | some v =>
      rw [hlk] at h
      simp only [Except.ok.injEq] at h
      subst h
      rfl
  have hlen : r.dict.length < d.length := by
    rw [hdict]
    rcases hk with hk | hk
    · exact Nat.lt_of_le_of_lt (length_popKey_le _ _) (length_popKey_lt _ _ hk)
    · exact Nat.lt_of_lt_of_le
        (length_popKey_lt _ _ (by rw [hasKey_popKey_ne _ _ _ hbw.symm]; exact hk))
        (length_popKey_le _ _)
  refine ⟨?_, fun heq => by rw [heq] at hlen; omega⟩
  rw [hdict]
  exact ⟨by rw [hasKey_popKey_ne _ _ _ hbw]; exact hasKey_popKey_self _ _,
         hasKey_popKey_self _ _⟩

/-- Claim C9, witness at the concrete b0 load (both head keys present). -/
theorem claim9_state_dict_mutated_witness :
    hasKey dInit keyFcBias = true ∧
    ((hasKey resW.dict keyFcBias = false ∧ hasKey resW.dict keyFcWeight = false) ∧
      resW.dict ≠ dInit) :=
  ⟨rfl, claim9_state_dict_mutated (mkB0 5) dInit stInit resW rfl (Or.inl rfl)⟩

/-- Claim C10.  Every registry entry's `stage_idxs` is strictly
increasing and all its indices are positive, so the stage-boundary
comparisons in `forward` are met in ascending block order. -/
theorem claim10_stage_idxs_increasing (en : RegistryEntry)
    (h : en ∈ efficient_netst_encoders) :
    List.Pairwise (fun a b => a < b) en.params.stage_idxs ∧
    ∀ i ∈ en.params.stage_idxs, 0 < i := by
  fin_cases h <;> decide

/-- Claim C10, witness: the `efficientnetst-b0` entry. -/
theorem claim10_stage_idxs_increasing_witness :
    b0Entry ∈ efficient_netst_encoders ∧
    (List.Pairwise (fun a b => a < b) b0Entry.params.stage_idxs ∧
     ∀ i ∈ b0Entry.params.stage_idxs, 0 < i) :=
  ⟨by decide, claim10_stage_idxs_increasing b0Entry (by decide)⟩

end EffNetST
